import Mathlib

/-!
A verification development of the fix-convergence and diagnostic-reporting
core of the `deno lint` orchestration module (`cli/tools/lint/mod.rs`).

Source text is modelled as a sequence of characters, so the Rust byte
offsets become indices into that sequence.  Fallible Rust functions
returning `Result<_, AnyError>` become `Except Err _`, where an `Err`
is the `anyhow` context chain (outermost context message first).
Side effects (cache writes, reporter visits, file writes, warnings) are
reified as explicit fields of result records.
-/

namespace DenoLint

/-- Source text: the Rust `String` / `SourceTextInfo` contents. -/
abbrev Text := List Char

/-- A half-open replacement range `[start, stop)`; `stop` is the Rust
`range.end` (renamed because `end` is a Lean keyword). -/
structure ByteRange where
  start : Nat
  stop : Nat
deriving DecidableEq, Repr

/-- Embedding of `deno_ast::TextChange`: a byte-range replacement.  In the
source the range is produced by `change.range.as_byte_range(file_start)`;
we model the file as starting at offset 0, so the range is used directly. -/
structure TextChange where
  range : ByteRange
  new_text : Text
deriving DecidableEq, Repr

/-- A candidate fix of a lint diagnostic (`deno_lint`'s fix data): an ordered
sequence of text edits. -/
structure LintFix where
  changes : List TextChange
deriving DecidableEq, Repr

/-- Embedding of `deno_lint::diagnostic::LintDiagnostic`, restricted to the
fields this module reads: the file specifier, the diagnostic range, message,
code, and the ordered candidate fixes. -/
structure LintDiagnostic where
  specifier : String
  range : ByteRange
  message : String
  code : String
  fixes : List LintFix
deriving DecidableEq, Repr

/-- An `anyhow`-style error: the context chain, outermost message first.
`Context::context(msg)` conses `msg` onto the chain. -/
abbrev Err := List String

/-- Add context to an error, as `anyhow::Context::context` does. -/
def errContext (msg : String) (e : Err) : Err := msg :: e

/-- The external analyzer (`Linter::lint_file`), as consumed by this module:
given source text it either fails fatally or returns the diagnostics for that
text.  The returned `ParsedSource` of the Rust API carries the same text that
was passed in, so only the diagnostics need to be returned here. -/
abbrev Linter := Text → Except Err (List LintDiagnostic)

/-- Model of `deno_ast::apply_text_changes` (external collaborator): splice a
list of non-overlapping changes, sorted by start offset, into `text`.
`pos` is the cursor: everything in `[pos, change.range.start)` is kept. -/
def applyTextChangesFrom (text : Text) (pos : Nat) : List TextChange → Text
  | [] => text.drop pos
  | c :: cs =>
    (text.drop pos).take (c.range.start - pos) ++ c.new_text ++
      applyTextChangesFrom text c.range.stop cs

/-- Model of `deno_ast::apply_text_changes` applied from the start of the
file. -/
def apply_text_changes (text : Text) (changes : List TextChange) : Text :=
  applyTextChangesFrom text 0 changes

/-- The key order used by `quick_fixes.sort_by_key(|change| change.range.start)`. -/
def changeLe (a b : TextChange) : Prop := a.range.start ≤ b.range.start

instance : DecidableRel changeLe := fun a b => by unfold changeLe; infer_instance

/-- Rust's `sort_by_key` is a stable sort; a stable sort with respect to a
total preorder is unique, so insertion sort (stable) models it exactly. -/
def sortChanges (l : List TextChange) : List TextChange :=
  List.insertionSort changeLe l

/-- One step of the overlap-removal loop of `apply_lint_fixes`, at index `i`:
`if quick_fixes[i].range.start < quick_fixes[i-1].range.end { quick_fixes.remove(i) }`. -/
def overlapStep (acc : List TextChange) (i : Nat) : List TextChange :=
  match acc[i]?, acc[i - 1]? with
  | some cur, some previous =>
    if cur.range.start < previous.range.stop then acc.eraseIdx i else acc
  | _, _ => acc

/-- The overlap-removal loop `for i in (1..quick_fixes.len()).rev()` of
`apply_lint_fixes`, as a fold over the descending index list
`[len-1, ..., 1]`.  Elements are only ever removed at the current index, so
positions below the current index still hold their original values, exactly
as in the Rust `Vec::remove` loop. -/
def removeOverlaps (quick_fixes : List TextChange) : List TextChange :=
  (((List.range quick_fixes.length).drop 1).reverse).foldl overlapStep quick_fixes

/-- Embedding of `apply_lint_fixes`: take the first candidate fix of each
diagnostic that has one, flatten their changes into one edit list, sort by
start offset, drop overlapping edits scanning from the end, and apply the
survivors; `none` when there is nothing to do. -/
def apply_lint_fixes (text_info : Text) (diagnostics : List LintDiagnostic) :
    Option Text :=
  if diagnostics.isEmpty then none
  else
    let quick_fixes :=
      (diagnostics.filterMap (fun d => d.fixes.head?)).flatMap
        (fun fix => fix.changes)
    if quick_fixes.isEmpty then none
    else
      some (apply_text_changes text_info (removeOverlaps (sortChanges quick_fixes)))

/-- The message with which `apply_lint_fixes_and_relint` wraps a re-lint
failure. -/
def fixSyntaxErrorMsg : String :=
  "An applied lint fix caused a syntax error. Please report this bug."

/-- Embedding of `apply_lint_fixes_and_relint`: apply one batch of fixes; if
any edits applied, re-lint the new text, wrapping a re-lint failure in the
distinguishing context message. -/
def apply_lint_fixes_and_relint (linter : Linter) (text_info : Text)
    (diagnostics : List LintDiagnostic) :
    Except Err (Option (Text × List LintDiagnostic)) :=
  match apply_lint_fixes text_info diagnostics with
  | none => .ok none
  | some new_text =>
    match linter new_text with
    | .ok ds => .ok (some (new_text, ds))
    | .error e => .error (errContext fixSyntaxErrorMsg e)

/-- Result of the fix-convergence loop of `lint_file_and_fix`: the final
working text and diagnostics, the number of applied iterations
(`fix_iterations`), and whether the max-iterations warning was logged. -/
structure FixRun where
  text : Text
  diagnostics : List LintDiagnostic
  iterations : Nat
  warned : Bool
deriving DecidableEq, Repr

/-- The `loop` of `lint_file_and_fix`: each pass calls
`apply_lint_fixes_and_relint`; on `None` it breaks, otherwise it replaces the
working state, increments `fix_iterations`, and breaks with a warning once
`fix_iterations > 5`. -/
def fixLoop (linter : Linter) (text : Text) (diagnostics : List LintDiagnostic)
    (fix_iterations : Nat) : Except Err FixRun :=
  match apply_lint_fixes_and_relint linter text diagnostics with
  | .error e => .error e
  | .ok none => .ok ⟨text, diagnostics, fix_iterations, false⟩
  | .ok (some (t, ds)) =>
    if fix_iterations + 1 > 5 then .ok ⟨t, ds, fix_iterations + 1, true⟩
    else fixLoop linter t ds (fix_iterations + 1)
termination_by 6 - fix_iterations
decreasing_by omega

/-- Result of `lint_file_and_fix` with its side effects reified: the final
source text and diagnostics (the Rust return value), the number of applied
fix iterations, the non-convergence warning (carrying the specifier it
names), and the content written back via `fs::write`, if any. -/
structure FixFileResult where
  source : Text
  diagnostics : List LintDiagnostic
  iterations : Nat
  warning : Option String
  wrote : Option Text
deriving DecidableEq, Repr

/-- Embedding of `lint_file_and_fix`: initial lint, then the fix-convergence
loop, then — only when at least one iteration applied edits — the write-back
of the final text. -/
def lint_file_and_fix (linter : Linter) (specifier : String) (source_code : Text) :
    Except Err FixFileResult :=
  match linter source_code with
  | .error e => .error e
  | .ok diagnostics =>
    match fixLoop linter source_code diagnostics 0 with
    | .error e => .error e
    | .ok r =>
      .ok { source := r.text
            diagnostics := r.diagnostics
            iterations := r.iterations
            warning := if r.warned then some specifier else none
            wrote := if r.iterations > 0 then some r.text else none }

/-- Embedding of `lint_file`: with `fix` disabled a single lint pass (no
iterations, no warning, no write), with `fix` enabled the full
`lint_file_and_fix` pipeline.  The specifier is derived from the file path. -/
def lint_file (linter : Linter) (specifier : String) (fix : Bool)
    (source_code : Text) : Except Err FixFileResult :=
  if fix then lint_file_and_fix linter specifier source_code
  else
    match linter source_code with
    | .error e => .error e
    | .ok ds => .ok ⟨source_code, ds, 0, none, none⟩

/-! ### Positions

The JSON reporter derives 0-indexed line/column indices via
`SourceTextInfo::line_and_column_index` and then adjusts the line by one;
the compact reporter uses `SourceTextInfo::line_and_column_display`, the
1-indexed display positions of `deno_ast`. -/

/-- 0-indexed line/column of `deno_ast` (`LineAndColumnIndex`). -/
structure LineAndColumnIndex where
  line_index : Nat
  column_index : Nat
deriving DecidableEq, Repr

/-- 1-indexed display line/column of `deno_ast` (`LineAndColumnDisplay`). -/
structure LineAndColumnDisplay where
  line_number : Nat
  column_number : Nat
deriving DecidableEq, Repr

/-- Number of line breaks before `pos`: the 0-indexed line of `pos`. -/
def lineIndexOf (text : Text) (pos : Nat) : Nat :=
  ((text.take pos).filter (fun c => c == '\n')).length

/-- Number of characters between the last line break and `pos`: the 0-indexed
column of `pos`. -/
def columnIndexOf (text : Text) (pos : Nat) : Nat :=
  ((text.take pos).reverse.takeWhile (fun c => c != '\n')).length

/-- Model of `deno_ast`'s `SourceTextInfo::line_and_column_index` (external
collaborator): the 0-indexed line and column of a position. -/
def line_and_column_index (text : Text) (pos : Nat) : LineAndColumnIndex :=
  ⟨lineIndexOf text pos, columnIndexOf text pos⟩

/-- Model of `deno_ast`'s `SourceTextInfo::line_and_column_display` (external
collaborator): the 1-indexed display line and column of a position, i.e. the
0-indexed indices each shifted by one. -/
def line_and_column_display (text : Text) (pos : Nat) : LineAndColumnDisplay :=
  ⟨lineIndexOf text pos + 1, columnIndexOf text pos + 1⟩

/-! ### The polymorphic diagnostic and the reporters -/

/-- A diagnostic range as exposed by `LintOrCliDiagnostic::range`: the
`SourceTextInfo` of the analyzed file together with the byte range. -/
structure DiagRange where
  text_info : Text
  start : Nat
  stop : Nat
deriving DecidableEq, Repr

/-- The read-only capability view of `LintOrCliDiagnostic` that the reporters
consume: `specifier()`, `message()`, `code()`, `hint()`, `range()` (absent for
workspace diagnostics without a location). -/
structure LintOrCliDiagnostic where
  specifier : String
  message : String
  code : String
  hint : Option String
  range : Option DiagRange
deriving DecidableEq, Repr

/-- The line emitted by `CompactLintReporter::visit_diagnostic` for one
diagnostic (`eprintln!` reified as the produced string). -/
def compact_line (d : LintOrCliDiagnostic) : String :=
  match d.range with
  | some r =>
    let line_and_column := line_and_column_display r.text_info r.start
    d.specifier ++ ": line " ++ toString line_and_column.line_number ++
      ", col " ++ toString line_and_column.column_number ++ " - " ++
      d.message ++ " (" ++ d.code ++ ")"
  | none => d.specifier ++ ": " ++ d.message ++ " (" ++ d.code ++ ")"

/-- Embedding of `JsonDiagnosticLintPosition`: 1-indexed line, 0-indexed
column, byte position. -/
structure JsonDiagnosticLintPosition where
  line : Nat
  col : Nat
  byte_pos : Nat
deriving DecidableEq, Repr

/-- `JsonDiagnosticLintPosition::new`: note the line is shifted to 1-indexed
while the column index is used as is. -/
def JsonDiagnosticLintPosition.new (byte_index : Nat) (loc : LineAndColumnIndex) :
    JsonDiagnosticLintPosition :=
  ⟨loc.line_index + 1, loc.column_index, byte_index⟩

/-- Embedding of `JsonLintDiagnosticRange`. -/
structure JsonLintDiagnosticRange where
  start : JsonDiagnosticLintPosition
  stop : JsonDiagnosticLintPosition
deriving DecidableEq, Repr

/-- Embedding of `JsonLintDiagnostic`, the buffered machine-readable record. -/
structure JsonLintDiagnostic where
  filename : String
  range : Option JsonLintDiagnosticRange
  message : String
  code : String
  hint : Option String
deriving DecidableEq, Repr

/-- Embedding of `LintError`, the buffered machine-readable error record. -/
structure LintError where
  file_path : String
  message : String
deriving DecidableEq, Repr

/-- Embedding of the `JsonLintReporter` state: the two buffers. -/
structure JsonLintReporter where
  diagnostics : List JsonLintDiagnostic
  errors : List LintError
deriving DecidableEq, Repr

/-- `JsonLintReporter::new`. -/
def JsonLintReporter.new : JsonLintReporter := ⟨[], []⟩

/-- Three-way comparison derived from a linear order; models Rust's
`Ord::cmp` on the corresponding key type. -/
def cmpv {α : Type} [LinearOrder α] (a b : α) : Ordering :=
  if a < b then .lt else if a = b then .eq else .gt

/-- Character-list comparison: Rust's lexicographic `String` ordering. -/
def charListCmp : List Char → List Char → Ordering
  | [], [] => .eq
  | [], _ :: _ => .lt
  | _ :: _, [] => .gt
  | a :: as, b :: bs => (cmpv a b).then (charListCmp as bs)

/-- Model of Rust's `str::cmp`: lexicographic comparison. -/
def strCmp (a b : String) : Ordering := charListCmp a.data b.data

/-- The comparator of `sort_diagnostics`, embedded with the nested match
structure of the Rust closure: filename first; for equal filenames a present
range sorts before an absent one, two absent ranges tie, and two present
ranges compare by start line then start column. -/
def diagCmp (a b : JsonLintDiagnostic) : Ordering :=
  let file_order := strCmp a.filename b.filename
  match file_order with
  | .eq =>
    match a.range with
    | some a_range =>
      match b.range with
      | some b_range =>
        let line_order := cmpv a_range.start.line b_range.start.line
        match line_order with
        | .eq => cmpv a_range.start.col b_range.start.col
        | _ => line_order
      | none => .lt
    | none =>
      match b.range with
      | some _ => .gt
      | none => .eq
  | _ => file_order

/-- The order `sort_diagnostics` sorts by, as a binary relation. -/
def jsonDiagLe (a b : JsonLintDiagnostic) : Prop := (diagCmp a b).isLE = true

instance : DecidableRel jsonDiagLe := fun a b => by unfold jsonDiagLe; infer_instance

/-- Embedding of `sort_diagnostics`: Rust's stable `sort_by` with the
comparator above.  A stable sort with respect to a total preorder is unique,
so insertion sort (stable) models it exactly. -/
def sort_diagnostics (diagnostics : List JsonLintDiagnostic) :
    List JsonLintDiagnostic :=
  List.insertionSort jsonDiagLe diagnostics

/-- The serializable record `JsonLintReporter::visit_diagnostic` builds from
one diagnostic view: byte positions are taken relative to the file start, the
line/column pairs come from `line_and_column_index`. -/
def toJsonRecord (d : LintOrCliDiagnostic) : JsonLintDiagnostic :=
  { filename := d.specifier
    range := d.range.map (fun dr =>
      { start := JsonDiagnosticLintPosition.new dr.start
          (line_and_column_index dr.text_info dr.start)
        stop := JsonDiagnosticLintPosition.new dr.stop
          (line_and_column_index dr.text_info dr.stop) })
    message := d.message
    code := d.code
    hint := d.hint }

/-- `JsonLintReporter::visit_diagnostic`: convert the diagnostic view to the
serializable record and push it onto the buffer. -/
def JsonLintReporter.visit_diagnostic (r : JsonLintReporter)
    (d : LintOrCliDiagnostic) : JsonLintReporter :=
  { r with diagnostics := r.diagnostics ++ [toJsonRecord d] }

/-- The display string of an error (`err.to_string()`): the outermost context
message. -/
def errDisplay (e : Err) : String := e.headD ""

/-- `JsonLintReporter::visit_error`: push the error record onto the buffer. -/
def JsonLintReporter.visit_error (r : JsonLintReporter) (file_path : String)
    (err : Err) : JsonLintReporter :=
  { r with errors := r.errors ++ [{ file_path := file_path, message := errDisplay err }] }

/-- The structured document the JSON reporter serializes on `close`: the
diagnostics buffer sorted by `sort_diagnostics`, and the errors buffer in
arrival order.  `serde_json::to_string_pretty` is a deterministic function of
this value, so byte-identical output corresponds to equality here. -/
structure JsonOutput where
  diagnostics : List JsonLintDiagnostic
  errors : List LintError
deriving DecidableEq, Repr

/-- `JsonLintReporter::close`: sort the diagnostics, then serialize both
buffers. -/
def JsonLintReporter.close (r : JsonLintReporter) : JsonOutput :=
  ⟨sort_diagnostics r.diagnostics, r.errors⟩

/-- One delivery to the machine-readable sink: a diagnostic or a file error,
as produced by the concurrent workers. -/
inductive SinkEvent where
  | diag (d : LintOrCliDiagnostic)
  | err (file_path : String) (e : Err)
deriving DecidableEq

/-- Deliver one event to the JSON reporter. -/
def visitEvent (r : JsonLintReporter) : SinkEvent → JsonLintReporter
  | .diag d => r.visit_diagnostic d
  | .err p e => r.visit_error p e

/-- A whole machine-readable run: deliver the events in order to a fresh
reporter, then close it. -/
def runJsonReporter (events : List SinkEvent) : JsonOutput :=
  (events.foldl visitEvent JsonLintReporter.new).close

/-- The diagnostic records a run delivers, in delivery order. -/
def diagRecordsOf (events : List SinkEvent) : List JsonLintDiagnostic :=
  events.filterMap fun
    | .diag d => some (toJsonRecord d)
    | .err _ _ => none

/-- The error records a run delivers, in delivery order. -/
def errRecordsOf (events : List SinkEvent) : List LintError :=
  events.filterMap fun
    | .diag _ => none
    | .err p e => some ⟨p, errDisplay e⟩

/-! ### The file pool task of `lint_files` -/

/-- The relative order `handle_lint_result` sorts per-file diagnostics by:
specifier, then range start. -/
def lintDiagLe (a b : LintDiagnostic) : Prop :=
  ((strCmp a.specifier b.specifier).then (cmpv a.range.start b.range.start)).isLE = true

instance : DecidableRel lintDiagLe := fun a b => by unfold lintDiagLe; infer_instance

/-- One file handed to the file pool: its path and the content read by
`fs::read_to_string`. -/
structure FileInput where
  path : String
  text : Text
deriving DecidableEq, Repr

/-- The observable effects of one file task of `lint_files`:
the `update_file` calls on the incremental cache (path and content), the
diagnostics visited on the sink (sorted by `handle_lint_result`), the errors
visited on the sink, and whether the task raised the run's error flag. -/
structure TaskEffects where
  updates : List (String × Text)
  visitedDiags : List LintDiagnostic
  visitedErrors : List (String × Err)
  raised : Bool
deriving DecidableEq

/-- The `is_file_same` gateway of the incremental cache, as consumed here:
a predicate on path and content. -/
abbrev CacheGateway := String → Text → Bool

/-- Embedding of one iteration of the file pool closure in `lint_files`:
skip entirely when the incremental cache reports the file unchanged;
otherwise lint (optionally with fix convergence), update the cache when the
final diagnostic list is empty (passing the final, possibly fixed, text), and
report the result through `handle_lint_result`, raising the error flag when
the file had diagnostics or failed. -/
def processFile (cache : CacheGateway) (linter : Linter) (fix : Bool)
    (input : FileInput) : TaskEffects :=
  if cache input.path input.text then ⟨[], [], [], false⟩
  else
    match lint_file linter input.path fix input.text with
    | .ok r =>
      { updates := if r.diagnostics.isEmpty then [(input.path, r.source)] else []
        visitedDiags := List.insertionSort lintDiagLe r.diagnostics
        visitedErrors := []
        raised := !r.diagnostics.isEmpty }
    | .error e =>
      { updates := []
        visitedDiags := []
        visitedErrors := [(input.path, e)]
        raised := true }

/-- The aggregate outcome of the file pool of `lint_files`: the effects of
every file task, the file count passed to the reporter's `close`
(`target_files_len`, fixed before any task runs), and the returned success
flag (`!has_error.is_raised()`). -/
structure RunOutcome where
  effects : List TaskEffects
  closeCount : Nat
  success : Bool
deriving DecidableEq

/-- Embedding of the file pool of `lint_files` over a batch of files.  The
concurrent pool is order-insensitive per file (each task shares no state with
any other), so it is modelled by mapping the per-file task over the batch. -/
def lint_files_run (cache : CacheGateway) (linter : Linter) (fix : Bool)
    (inputs : List FileInput) : RunOutcome :=
  let effects := inputs.map (processFile cache linter fix)
  { effects := effects
    closeCount := inputs.length
    success := !(effects.any (·.raised)) }

/-! ### Definitions written from the specification's words

These are compared against the source-derived definitions above; they are
not translations of the source. -/

/-- From the spec: scanning a sorted edit list from the end, drop each edit
whose start offset is strictly before the end offset of the edit immediately
before it in the list. -/
def dropOverlapsAux (previous : TextChange) : List TextChange → List TextChange
  | [] => []
  | cur :: rest =>
    if cur.range.start < previous.range.stop then dropOverlapsAux cur rest
    else cur :: dropOverlapsAux cur rest

/-- From the spec: the overlap-removal policy. The first (earliest-starting)
edit always survives; each later edit survives iff its start is not before
the end of its immediate predecessor in the sorted list. -/
def dropOverlapsSpec : List TextChange → List TextChange
  | [] => []
  | first :: rest => first :: dropOverlapsAux first rest

/-- From the spec: the fix pipeline — first candidate fix of each diagnostic
carrying fixes, flattened, sorted by start offset, overlaps dropped, then
applied in one batch; nothing to do yields no new text. -/
def apply_lint_fixes_spec (text_info : Text) (diagnostics : List LintDiagnostic) :
    Option Text :=
  if diagnostics.isEmpty then none
  else
    let edits :=
      (diagnostics.filterMap (fun d => d.fixes.head?)).flatMap
        (fun fix => fix.changes)
    if edits.isEmpty then none
    else some (apply_text_changes text_info (dropOverlapsSpec (sortChanges edits)))

/-- From the spec: the secondary key of the JSON sort — start line, then
start column. -/
def posKeyCmp (a b : JsonDiagnosticLintPosition) : Ordering :=
  (cmpv a.line b.line).then (cmpv a.col b.col)

/-- From the spec: for equal filenames, a diagnostic with a range sorts
before one without; two without ranges compare equal; two with ranges
compare by start line then start column. -/
def specRangeCmp : Option JsonLintDiagnosticRange → Option JsonLintDiagnosticRange → Ordering
  | some ra, some rb => posKeyCmp ra.start rb.start
  | some _, none => .lt
  | none, some _ => .gt
  | none, none => .eq

/-- From the spec: the deterministic total order of the machine-readable
reporter — filename (lexicographic) first, then the range key. -/
def sortOrderSpec (a b : JsonLintDiagnostic) : Ordering :=
  (strCmp a.filename b.filename).then (specRangeCmp a.range b.range)

/-! ### Concrete fixtures used by witnesses and counterexamples -/

/-- A diagnostic whose single fix inserts `x` at the start of the file; its
triggering condition never resolves, so fixes keep applying forever. -/
def stubbornDiag : LintDiagnostic :=
  { specifier := "file:///a.ts"
    range := ⟨0, 0⟩
    message := "m"
    code := "c"
    fixes := [⟨[⟨⟨0, 0⟩, ['x']⟩]⟩] }

/-- A linter that reports `stubbornDiag` on every text: the synthetic
never-converging rule. -/
def stubbornLinter : Linter := fun _ => .ok [stubbornDiag]

/-- A diagnostic on the text `bad` whose single fix rewrites the whole text
to `ok`. -/
def fixableDiag : LintDiagnostic :=
  { specifier := "file:///b.ts"
    range := ⟨0, 3⟩
    message := "m"
    code := "c"
    fixes := [⟨[⟨⟨0, 3⟩, ['o', 'k']⟩]⟩] }

/-- A linter that flags the text `bad` with `fixableDiag` and reports any
other text clean: fix convergence succeeds after one iteration. -/
def convergingLinter : Linter := fun t =>
  if t = ['b', 'a', 'd'] then .ok [fixableDiag] else .ok []

/-- A linter that flags `bad` with `fixableDiag` but fails to parse anything
else: the applied fix produces text that no longer analyzes. -/
def brokenFixLinter : Linter := fun t =>
  if t = ['b', 'a', 'd'] then .ok [fixableDiag] else .error ["boom"]

/-- A diagnostic carrying no fixes at all. -/
def fixlessDiag : LintDiagnostic :=
  { specifier := "file:///d.ts"
    range := ⟨1, 2⟩
    message := "m"
    code := "c"
    fixes := [] }

/-- A linter that reports the fixless diagnostic on every text. -/
def fixlessLinter : Linter := fun _ => .ok [fixlessDiag]

/-- A located diagnostic view at position 0 of the three-character file
`abc`: its 0-indexed line and column indices are both 0. -/
def compactSampleDiag : LintOrCliDiagnostic :=
  { specifier := "file:///a.ts"
    message := "m"
    code := "x"
    hint := none
    range := some ⟨['a', 'b', 'c'], 0, 1⟩ }

/-- An unlocated diagnostic view in file `a.ts`. -/
def jsonDiagA : LintOrCliDiagnostic :=
  ⟨"file:///a.ts", "ma", "ca", none, none⟩

/-- An unlocated diagnostic view in file `b.ts`. -/
def jsonDiagB : LintOrCliDiagnostic :=
  ⟨"file:///b.ts", "mb", "cb", none, none⟩

/-! ## Theorems

### Comparator laws -/

theorem cmpv_swap {α : Type} [LinearOrder α] (a b : α) :
    cmpv a b = (cmpv b a).swap := by
  rcases lt_trichotomy a b with h | h | h
  · simp [cmpv, h, lt_asymm h, h.ne, h.ne', Ordering.swap]
  · subst h; simp [cmpv, lt_irrefl, Ordering.swap]
  · simp [cmpv, h, lt_asymm h, h.ne, h.ne', Ordering.swap]

theorem cmpv_eq_iff {α : Type} [LinearOrder α] (a b : α) :
    cmpv a b = .eq ↔ a = b := by
  rcases lt_trichotomy a b with h | h | h
  · simp [cmpv, h, h.ne]
  · subst h; simp [cmpv, lt_irrefl]
  · simp [cmpv, h, lt_asymm h, h.ne']

theorem cmpv_lt_iff {α : Type} [LinearOrder α] (a b : α) :
    cmpv a b = .lt ↔ a < b := by
  rcases lt_trichotomy a b with h | h | h
  · simp [cmpv, h]
  · subst h; simp [cmpv, lt_irrefl]
  · simp [cmpv, h, lt_asymm h, h.ne']

theorem then_eq_lt_iff (o p : Ordering) :
    o.then p = .lt ↔ o = .lt ∨ (o = .eq ∧ p = .lt) := by
  cases o <;> simp [Ordering.then]

theorem then_eq_eq_iff (o p : Ordering) :
    o.then p = .eq ↔ o = .eq ∧ p = .eq := by
  cases o <;> simp [Ordering.then]

theorem then_isLE_iff (o p : Ordering) :
    (o.then p).isLE = true ↔ o = .lt ∨ (o = .eq ∧ p.isLE = true) := by
  cases o <;> simp [Ordering.then, Ordering.isLE]

theorem isLE_or_swap_isLE (o : Ordering) :
    o.isLE = true ∨ o.swap.isLE = true := by
  cases o <;> simp [Ordering.isLE, Ordering.swap]

theorem charListCmp_swap : ∀ (as bs : List Char),
    charListCmp as bs = (charListCmp bs as).swap
  | [], [] => rfl
  | [], _ :: _ => rfl
  | _ :: _, [] => rfl
  | a :: as, b :: bs => by
    show (cmpv a b).then (charListCmp as bs) = ((cmpv b a).then (charListCmp bs as)).swap
    rw [Ordering.swap_then, ← cmpv_swap, ← charListCmp_swap as bs]

theorem charListCmp_eq_iff : ∀ (as bs : List Char),
    charListCmp as bs = .eq ↔ as = bs
  | [], [] => by simp [charListCmp]
  | [], _ :: _ => by simp [charListCmp]
  | _ :: _, [] => by simp [charListCmp]
  | a :: as, b :: bs => by
    show (cmpv a b).then (charListCmp as bs) = .eq ↔ _
    rw [then_eq_eq_iff, cmpv_eq_iff, charListCmp_eq_iff as bs]
    simp

theorem charListCmp_lt_trans : ∀ {as bs cs : List Char},
    charListCmp as bs = .lt → charListCmp bs cs = .lt → charListCmp as cs = .lt
  | [], [], _, h1, _ => by simp [charListCmp] at h1
  | [], _ :: _, [], _, h2 => by simp [charListCmp] at h2
  | [], _ :: _, _ :: _, _, _ => rfl
  | _ :: _, [], _, h1, _ => by simp [charListCmp] at h1
  | _ :: _, _ :: _, [], _, h2 => by simp [charListCmp] at h2
  | a :: as, b :: bs, c :: cs, h1, h2 => by
    rw [show charListCmp (a :: as) (b :: bs) = (cmpv a b).then (charListCmp as bs) from rfl,
      then_eq_lt_iff] at h1
    rw [show charListCmp (b :: bs) (c :: cs) = (cmpv b c).then (charListCmp bs cs) from rfl,
      then_eq_lt_iff] at h2
    rw [show charListCmp (a :: as) (c :: cs) = (cmpv a c).then (charListCmp as cs) from rfl,
      then_eq_lt_iff]
    rcases h1 with h1 | ⟨h1e, h1r⟩ <;> rcases h2 with h2 | ⟨h2e, h2r⟩
    · exact Or.inl ((cmpv_lt_iff a c).mpr (lt_trans ((cmpv_lt_iff a b).mp h1) ((cmpv_lt_iff b c).mp h2)))
    · rw [(cmpv_eq_iff b c).mp h2e] at h1; exact Or.inl h1
    · rw [← (cmpv_eq_iff a b).mp h1e] at h2; exact Or.inl h2
    · rw [(cmpv_eq_iff a b).mp h1e] at *
      exact Or.inr ⟨h2e, charListCmp_lt_trans h1r h2r⟩

theorem strCmp_swap (a b : String) : strCmp a b = (strCmp b a).swap :=
  charListCmp_swap a.data b.data

theorem strCmp_eq_iff (a b : String) : strCmp a b = .eq ↔ a = b := by
  unfold strCmp
  rw [charListCmp_eq_iff]
  constructor
  · intro h; cases a; cases b; exact congrArg String.mk h
  · intro h; rw [h]

theorem strCmp_lt_trans {a b c : String} (h1 : strCmp a b = .lt)
    (h2 : strCmp b c = .lt) : strCmp a c = .lt :=
  charListCmp_lt_trans h1 h2

/-! ### The JSON sort order -/

theorem diagCmp_eq_sortOrderSpec (a b : JsonLintDiagnostic) :
    diagCmp a b = sortOrderSpec a b := by
  unfold diagCmp sortOrderSpec specRangeCmp posKeyCmp
  cases strCmp a.filename b.filename <;>
    cases a.range <;> cases b.range <;> simp [Ordering.then]
  all_goals rename_i ra rb
  all_goals cases cmpv ra.start.line rb.start.line <;> rfl

theorem posKeyCmp_swap (a b : JsonDiagnosticLintPosition) :
    posKeyCmp a b = (posKeyCmp b a).swap := by
  unfold posKeyCmp
  rw [Ordering.swap_then, ← cmpv_swap, ← cmpv_swap]

theorem cmpv_isLE_iff {α : Type} [LinearOrder α] (a b : α) :
    (cmpv a b).isLE = true ↔ a ≤ b := by
  rcases lt_trichotomy a b with h | h | h
  · simp [cmpv, h, le_of_lt h, Ordering.isLE]
  · subst h; simp [cmpv, lt_irrefl, Ordering.isLE]
  · simp [cmpv, h, lt_asymm h, h.ne', Ordering.isLE, not_le.mpr h]

theorem posKeyCmp_isLE_trans {a b c : JsonDiagnosticLintPosition}
    (h1 : (posKeyCmp a b).isLE = true) (h2 : (posKeyCmp b c).isLE = true) :
    (posKeyCmp a c).isLE = true := by
  unfold posKeyCmp at *
  rw [then_isLE_iff] at *
  rcases h1 with h1 | ⟨h1e, h1r⟩ <;> rcases h2 with h2 | ⟨h2e, h2r⟩
  · exact Or.inl ((cmpv_lt_iff _ _).mpr
      (lt_trans ((cmpv_lt_iff _ _).mp h1) ((cmpv_lt_iff _ _).mp h2)))
  · rw [(cmpv_eq_iff _ _).mp h2e] at h1; exact Or.inl h1
  · rw [← (cmpv_eq_iff _ _).mp h1e] at h2; exact Or.inl h2
  · rw [(cmpv_eq_iff _ _).mp h1e] at *
    refine Or.inr ⟨h2e, ?_⟩
    exact (cmpv_isLE_iff _ _).mpr
      (le_trans ((cmpv_isLE_iff _ _).mp h1r) ((cmpv_isLE_iff _ _).mp h2r))

theorem specRangeCmp_swap (x y : Option JsonLintDiagnosticRange) :
    specRangeCmp x y = (specRangeCmp y x).swap := by
  cases x <;> cases y <;> simp [specRangeCmp, Ordering.swap]
  exact posKeyCmp_swap _ _

theorem specRangeCmp_isLE_trans {x y z : Option JsonLintDiagnosticRange}
    (h1 : (specRangeCmp x y).isLE = true) (h2 : (specRangeCmp y z).isLE = true) :
    (specRangeCmp x z).isLE = true := by
  cases x <;> cases y <;> cases z
  · exact h1
  · exact Bool.noConfusion h2
  · exact Bool.noConfusion h1
  · exact Bool.noConfusion h1
  · rfl
  · exact Bool.noConfusion h2
  · rfl
  · exact posKeyCmp_isLE_trans h1 h2

theorem sortOrderSpec_swap (a b : JsonLintDiagnostic) :
    sortOrderSpec a b = (sortOrderSpec b a).swap := by
  unfold sortOrderSpec
  rw [Ordering.swap_then, ← strCmp_swap, ← specRangeCmp_swap]

theorem sortOrderSpec_isLE_trans {a b c : JsonLintDiagnostic}
    (h1 : (sortOrderSpec a b).isLE = true) (h2 : (sortOrderSpec b c).isLE = true) :
    (sortOrderSpec a c).isLE = true := by
  unfold sortOrderSpec at *
  rw [then_isLE_iff] at *
  rcases h1 with h1 | ⟨h1e, h1r⟩ <;> rcases h2 with h2 | ⟨h2e, h2r⟩
  · exact Or.inl (strCmp_lt_trans h1 h2)
  · rw [(strCmp_eq_iff _ _).mp h2e] at h1; exact Or.inl h1
  · rw [← (strCmp_eq_iff _ _).mp h1e] at h2; exact Or.inl h2
  · rw [(strCmp_eq_iff _ _).mp h1e] at *
    exact Or.inr ⟨h2e, specRangeCmp_isLE_trans h1r h2r⟩

instance : IsTrans JsonLintDiagnostic jsonDiagLe :=
  ⟨fun a b c h1 h2 => by
    unfold jsonDiagLe at *
    rw [diagCmp_eq_sortOrderSpec] at *
    exact sortOrderSpec_isLE_trans h1 h2⟩

instance : IsTotal JsonLintDiagnostic jsonDiagLe :=
  ⟨fun a b => by
    unfold jsonDiagLe
    rw [diagCmp_eq_sortOrderSpec, diagCmp_eq_sortOrderSpec]
    rcases isLE_or_swap_isLE (sortOrderSpec a b) with h | h
    · exact Or.inl h
    · exact Or.inr (by rw [sortOrderSpec_swap b a]; exact h)⟩

theorem diagCmp_swap_eq (a b : JsonLintDiagnostic) :
    diagCmp b a = (diagCmp a b).swap := by
  rw [diagCmp_eq_sortOrderSpec, diagCmp_eq_sortOrderSpec, sortOrderSpec_swap b a]

/-- Two diagnostics that each sort no later than the other compare equal. -/
theorem jsonDiagLe_antisymm_eq {a b : JsonLintDiagnostic}
    (h1 : jsonDiagLe a b) (h2 : jsonDiagLe b a) : diagCmp a b = .eq := by
  unfold jsonDiagLe at *
  rw [diagCmp_swap_eq] at h2
  cases h : diagCmp a b <;> rw [h] at h1 h2 <;> simp [Ordering.isLE, Ordering.swap] at *

/-- Two sorted lists that are permutations of each other and whose elements
the order distinguishes are equal: sortedness plus per-element antisymmetry
pins the order down. -/
theorem sorted_perm_eq {α : Type} {r : α → α → Prop} :
    ∀ {l₁ l₂ : List α}, l₁.Perm l₂ → l₁.Pairwise r → l₂.Pairwise r →
      (∀ a ∈ l₁, ∀ b ∈ l₁, r a b → r b a → a = b) → l₁ = l₂ := by
  intro l₁
  induction l₁ with
  | nil =>
    intro l₂ hp _ _ _
    exact (hp.symm.eq_nil).symm
  | cons x xs ih =>
    intro l₂ hp hs₁ hs₂ anti
    cases l₂ with
    | nil => simp at hp
    | cons y ys =>
      have hxy : x = y := by
        by_contra hne
        have hy₁ : y ∈ xs := by
          have : y ∈ x :: xs := hp.mem_iff.mpr (List.mem_cons_self y ys)
          rcases List.mem_cons.mp this with h | h
          · exact absurd h.symm hne
          · exact h
        have hx₂ : x ∈ ys := by
          have : x ∈ y :: ys := hp.mem_iff.mp (List.mem_cons_self x xs)
          rcases List.mem_cons.mp this with h | h
          · exact absurd h hne
          · exact h
        have hrxy : r x y := List.rel_of_pairwise_cons hs₁ hy₁
        have hryx : r y x := List.rel_of_pairwise_cons hs₂ hx₂
        exact hne (anti x (List.mem_cons_self x xs) y (List.mem_cons_of_mem x hy₁) hrxy hryx)
      subst hxy
      have htail : xs.Perm ys := hp.cons_inv
      have : xs = ys := ih htail (List.Pairwise.of_cons hs₁) (List.Pairwise.of_cons hs₂)
        (fun a ha b hb => anti a (List.mem_cons_of_mem x ha) b (List.mem_cons_of_mem x hb))
      rw [this]

/-- Feeding events to the JSON reporter accumulates exactly the converted
diagnostic records and error records, in delivery order. -/
theorem foldl_visitEvent (events : List SinkEvent) :
    ∀ r : JsonLintReporter, events.foldl visitEvent r =
      ⟨r.diagnostics ++ diagRecordsOf events, r.errors ++ errRecordsOf events⟩ := by
  induction events with
  | nil => intro r; simp [diagRecordsOf, errRecordsOf]
  | cons ev evs ih =>
    intro r
    cases ev with
    | diag d =>
      rw [List.foldl_cons, ih]
      simp [visitEvent, JsonLintReporter.visit_diagnostic, diagRecordsOf, errRecordsOf,
        List.filterMap_cons]
    | err p e =>
      rw [List.foldl_cons, ih]
      simp [visitEvent, JsonLintReporter.visit_error, diagRecordsOf, errRecordsOf,
        List.filterMap_cons]

/-! ### The fix-convergence loop -/

/-- When every reachable state keeps producing applicable fixes, the loop
runs to its cap: it applies a batch on every pass and stops, warned, with
`fix_iterations = 6`. -/
theorem fixLoop_cap (linter : Linter) (P : Text → List LintDiagnostic → Prop)
    (hstep : ∀ t ds, P t ds → ∃ t' ds',
      apply_lint_fixes_and_relint linter t ds = .ok (some (t', ds')) ∧ P t' ds') :
    ∀ (fuel k : Nat), 5 - k = fuel → k ≤ 5 → ∀ t ds, P t ds →
      ∃ t' ds', fixLoop linter t ds k = .ok ⟨t', ds', 6, true⟩ ∧ P t' ds' := by
  intro fuel
  induction fuel with
  | zero =>
    intro k hk hk5 t ds hP
    have hk' : k = 5 := by omega
    subst hk'
    obtain ⟨t', ds', hstep', hP'⟩ := hstep t ds hP
    refine ⟨t', ds', ?_, hP'⟩
    unfold fixLoop
    rw [hstep']
    norm_num
  | succ m ih =>
    intro k hk hk5 t ds hP
    obtain ⟨t', ds', hstep', hP'⟩ := hstep t ds hP
    have hrec : fixLoop linter t ds k = fixLoop linter t' ds' (k + 1) := by
      conv_lhs => rw [fixLoop.eq_def]
      rw [hstep']
      have hlt : ¬ (k + 1 > 5) := by omega
      simp [hlt]
    rw [hrec]
    exact ih (k + 1) (by omega) (by omega) t' ds' hP'

/-- Every error `apply_lint_fixes_and_relint` produces is a re-lint failure
wrapped in the distinguishing context message. -/
theorem step_error_wrapped (linter : Linter) (t : Text)
    (ds : List LintDiagnostic) (e : Err)
    (h : apply_lint_fixes_and_relint linter t ds = .error e) :
    ∃ e₀, e = errContext fixSyntaxErrorMsg e₀ := by
  unfold apply_lint_fixes_and_relint at h
  split at h
  · exact Except.noConfusion h
  · split at h
    · exact Except.noConfusion h
    · rename_i e₀ _
      exact ⟨e₀, ((Except.error.injEq _ _).mp h).symm⟩

/-- Every error the fix loop produces is a wrapped re-lint failure: the loop
has no other error source. -/
theorem fixLoop_error_wrapped (linter : Linter) :
    ∀ (fuel : Nat) (t : Text) (ds : List LintDiagnostic) (k : Nat), 6 - k ≤ fuel →
      ∀ e, fixLoop linter t ds k = .error e →
        ∃ e₀, e = errContext fixSyntaxErrorMsg e₀ := by
  intro fuel
  induction fuel with
  | zero =>
    intro t ds k hk e h
    unfold fixLoop at h
    cases hstep : apply_lint_fixes_and_relint linter t ds with
    | error e' =>
      rw [hstep] at h
      obtain ⟨e₀, he⟩ := step_error_wrapped linter t ds e' hstep
      exact ⟨e₀, by rw [← he]; exact ((Except.error.injEq _ _).mp h).symm⟩
    | ok oc =>
      rw [hstep] at h
      cases oc with
      | none => exact Except.noConfusion h
      | some c =>
        obtain ⟨t', ds'⟩ := c
        have hgt : k + 1 > 5 := by omega
        simp only [hgt, if_true] at h
        exact Except.noConfusion h
  | succ m ih =>
    intro t ds k hk e h
    unfold fixLoop at h
    cases hstep : apply_lint_fixes_and_relint linter t ds with
    | error e' =>
      rw [hstep] at h
      obtain ⟨e₀, he⟩ := step_error_wrapped linter t ds e' hstep
      exact ⟨e₀, by rw [← he]; exact ((Except.error.injEq _ _).mp h).symm⟩
    | ok oc =>
      rw [hstep] at h
      cases oc with
      | none => exact Except.noConfusion h
      | some c =>
        obtain ⟨t', ds'⟩ := c
        by_cases hgt : k + 1 > 5
        · simp only [hgt, if_true] at h
          exact Except.noConfusion h
        · simp only [hgt, if_false] at h
          exact ih t' ds' (k + 1) (by omega) e h

theorem overlapStep_cons_succ (a : TextChange) (l : List TextChange) (i : Nat)
    (h : 1 ≤ i) : overlapStep (a :: l) (i + 1) = a :: overlapStep l i := by
  obtain ⟨j, rfl⟩ : ∃ j, i = j + 1 := ⟨i - 1, by omega⟩
  show overlapStep (a :: l) (j + 2) = a :: overlapStep l (j + 1)
  have h2 : j + 2 - 1 = j + 1 := by omega
  have h1 : j + 1 - 1 = j := by omega
  unfold overlapStep
  rw [h2, h1, List.getElem?_cons_succ, List.getElem?_cons_succ]
  cases l[j + 1]? with
  | none => rfl
  | some cur =>
    cases l[j]? with
    | none => rfl
    | some previous =>
      by_cases hlt : cur.range.start < previous.range.stop
      · simp [hlt, List.eraseIdx_cons_succ]
      · simp [hlt]

theorem foldl_overlapStep_shift (a : TextChange) :
    ∀ (L : List Nat), (∀ i ∈ L, 1 ≤ i) → ∀ (l : List TextChange),
      List.foldl overlapStep (a :: l) (L.map (· + 1)) =
        a :: List.foldl overlapStep l L := by
  intro L
  induction L with
  | nil => intro _ l; rfl
  | cons i L ih =>
    intro hmem l
    have hi : 1 ≤ i := hmem i (List.mem_cons_self i L)
    rw [List.map_cons, List.foldl_cons, List.foldl_cons,
      overlapStep_cons_succ a l i hi]
    exact ih (fun j hj => hmem j (List.mem_cons_of_mem i hj)) (overlapStep l i)

/-- The descending index list of the overlap-removal loop. -/
theorem overlap_indices_succ (n : Nat) :
    ((List.range (n + 1)).drop 1).reverse =
      ((List.range n).reverse).map (· + 1) := by
  rw [List.range_succ_eq_map]
  simp [List.map_reverse]

theorem overlap_indices_mem {n i : Nat}
    (h : i ∈ ((List.range (n + 1)).drop 1).reverse) : 1 ≤ i := by
  rw [overlap_indices_succ] at h
  obtain ⟨j, _, rfl⟩ := List.mem_map.mp h
  omega

theorem overlap_indices_split (n : Nat) :
    ((List.range (n + 2)).drop 1).reverse =
      ((((List.range (n + 1)).drop 1).reverse).map (· + 1)) ++ [1] := by
  rw [overlap_indices_succ, overlap_indices_succ]
  rw [List.range_succ_eq_map]
  simp [List.map_reverse, List.map_map, Function.comp_def]

theorem removeOverlaps_go (xs : List TextChange) :
    ∀ previous, List.foldl overlapStep (previous :: xs)
        (((List.range (xs.length + 1)).drop 1).reverse) =
      previous :: dropOverlapsAux previous xs := by
  induction xs with
  | nil => intro previous; rfl
  | cons y ys ih =>
    intro previous
    have hlen : (y :: ys).length + 1 = ys.length + 2 := by simp
    rw [hlen, overlap_indices_split, List.foldl_append,
      foldl_overlapStep_shift previous _ (fun i hi => overlap_indices_mem hi),
      ih y]
    show overlapStep (previous :: y :: dropOverlapsAux y ys) 1 =
      previous :: dropOverlapsAux previous (y :: ys)
    unfold overlapStep
    simp only [dropOverlapsAux]
    by_cases hlt : y.range.start < previous.range.stop
    · simp [hlt, List.eraseIdx_cons_succ]
    · simp [hlt]

/-- The `Vec::remove` loop of `apply_lint_fixes` computes exactly the
declarative drop: the first edit survives, and each later edit survives iff
it does not overlap its immediate predecessor in the sorted list. -/
theorem removeOverlaps_eq_dropOverlapsSpec (l : List TextChange) :
    removeOverlaps l = dropOverlapsSpec l := by
  cases l with
  | nil => rfl
  | cons x xs =>
    show List.foldl overlapStep (x :: xs)
        (((List.range (xs.length + 1)).drop 1).reverse) = _
    rw [removeOverlaps_go xs x]
    rfl

/-! ### Claim C2 -/

/-- C2: `apply_lint_fixes` builds its edit list from only the first candidate
fix of each diagnostic carrying fixes, sorts by start offset and, scanning
from the end, drops each edit whose start offset is strictly less than the
end offset of the edit immediately before it — the spec pipeline computes the
same result on every input — and on the edits `[0,5)->a`, `[3,8)->b`,
`[10,12)->c` the second edit is dropped while the first and third survive. -/
theorem apply_lint_fixes_matches_spec_pipeline :
    (∀ (text : Text) (ds : List LintDiagnostic),
      apply_lint_fixes text ds = apply_lint_fixes_spec text ds) ∧
    removeOverlaps (sortChanges
        [⟨⟨0, 5⟩, ['a']⟩, ⟨⟨3, 8⟩, ['b']⟩, ⟨⟨10, 12⟩, ['c']⟩]) =
      [⟨⟨0, 5⟩, ['a']⟩, ⟨⟨10, 12⟩, ['c']⟩] := by
  constructor
  · intro text ds
    simp only [apply_lint_fixes, apply_lint_fixes_spec,
      removeOverlaps_eq_dropOverlapsSpec]
  · decide

/-! ### Claim C10 -/

/-- C10: overlap removal never removes the edit at index 0: whenever the
flattened edit list is non-empty, the head of the sorted edit list survives,
at least one edit survives, and `apply_lint_fixes` produces new text — the
spec's "edit list becomes empty after overlap removal" stop condition is
unreachable. -/
theorem overlap_removal_never_empties (text : Text) (ds : List LintDiagnostic)
    (edits : List TextChange)
    (hedits : edits =
      (ds.filterMap (fun d => d.fixes.head?)).flatMap (fun fix => fix.changes))
    (hne : edits ≠ []) :
    (removeOverlaps (sortChanges edits)).head? = (sortChanges edits).head? ∧
    removeOverlaps (sortChanges edits) ≠ [] ∧
    (apply_lint_fixes text ds).isSome = true := by
  have hsne : sortChanges edits ≠ [] := by
    intro hnil
    have hp := List.perm_insertionSort changeLe edits
    rw [show List.insertionSort changeLe edits = sortChanges edits from rfl, hnil] at hp
    exact hne hp.symm.eq_nil
  have hds : ¬ ds.isEmpty := by
    intro hd
    rw [List.isEmpty_iff] at hd
    subst hd
    simp at hedits
    exact hne hedits
  refine ⟨?_, ?_, ?_⟩
  · cases hsc : sortChanges edits with
    | nil => exact absurd hsc hsne
    | cons x xs => rw [removeOverlaps_eq_dropOverlapsSpec]; rfl
  · cases hsc : sortChanges edits with
    | nil => exact absurd hsc hsne
    | cons x xs => rw [removeOverlaps_eq_dropOverlapsSpec]; simp [dropOverlapsSpec]
  · unfold apply_lint_fixes
    rw [if_neg hds, if_neg (by rw [← hedits, List.isEmpty_iff]; exact hne)]
    rfl

/-- Witness for C10: a single diagnostic with one fix yields a non-empty
flattened edit list, the head edit survives, and new text is produced. -/
theorem overlap_removal_never_empties_witness :
    (([fixableDiag].filterMap (fun d => d.fixes.head?)).flatMap
        (fun fix => fix.changes) ≠ []) ∧
    ((removeOverlaps (sortChanges (([fixableDiag].filterMap
        (fun d => d.fixes.head?)).flatMap (fun fix => fix.changes)))).head? =
      (sortChanges (([fixableDiag].filterMap
        (fun d => d.fixes.head?)).flatMap (fun fix => fix.changes))).head? ∧
     removeOverlaps (sortChanges (([fixableDiag].filterMap
        (fun d => d.fixes.head?)).flatMap (fun fix => fix.changes))) ≠ [] ∧
     (apply_lint_fixes [] [fixableDiag]).isSome = true) :=
  ⟨by decide, overlap_removal_never_empties [] [fixableDiag] _ rfl (by decide)⟩

/-! ### Claim C7 -/

/-- C7: when analysis yields zero diagnostics, or only diagnostics without
candidate fixes, fix convergence performs zero edits and zero writes:
`apply_lint_fixes` returns no new text, the loop exits after zero applied
iterations, and no file write occurs. -/
theorem fix_convergence_noop (linter : Linter) (specifier : String) (t : Text)
    (ds : List LintDiagnostic)
    (hds : ds = [] ∨ ∀ d ∈ ds, d.fixes = [])
    (hl : linter t = .ok ds) :
    apply_lint_fixes t ds = none ∧
    fixLoop linter t ds 0 = .ok ⟨t, ds, 0, false⟩ ∧
    lint_file_and_fix linter specifier t = .ok ⟨t, ds, 0, none, none⟩ := by
  have h1 : apply_lint_fixes t ds = none := by
    rcases hds with h | h
    · subst h; rfl
    · have hqf : ds.filterMap (fun d => d.fixes.head?) = [] := by
        rw [List.filterMap_eq_nil_iff]
        intro d hd
        rw [h d hd]; rfl
      unfold apply_lint_fixes
      rw [hqf]
      simp
  have h2 : fixLoop linter t ds 0 = .ok ⟨t, ds, 0, false⟩ := by
    rw [fixLoop.eq_def]
    unfold apply_lint_fixes_and_relint
    rw [h1]
  have h3 : lint_file_and_fix linter specifier t = .ok ⟨t, ds, 0, none, none⟩ := by
    simp [lint_file_and_fix, hl, h2]
  exact ⟨h1, h2, h3⟩

/-- Witness for C7: a linter that reports one fixless diagnostic performs no
edits and no writes. -/
theorem fix_convergence_noop_witness :
    (([fixlessDiag] : List LintDiagnostic) = [] ∨
      ∀ d ∈ [fixlessDiag], d.fixes = []) ∧
    fixlessLinter ['a'] = .ok [fixlessDiag] ∧
    (apply_lint_fixes ['a'] [fixlessDiag] = none ∧
     fixLoop fixlessLinter ['a'] [fixlessDiag] 0 =
       .ok ⟨['a'], [fixlessDiag], 0, false⟩ ∧
     lint_file_and_fix fixlessLinter "s" ['a'] =
       .ok ⟨['a'], [fixlessDiag], 0, none, none⟩) :=
  ⟨Or.inr (by decide), rfl,
    fix_convergence_noop fixlessLinter "s" ['a'] [fixlessDiag]
      (Or.inr (by decide)) rfl⟩

/-! ### Claim C1 -/

/-- One step of the never-converging rule: on any text it applies the
insertion fix and re-lints to the same diagnostic. -/
theorem stubborn_step (t : Text) :
    apply_lint_fixes_and_relint stubbornLinter t [stubbornDiag] =
      .ok (some ('x' :: t, [stubbornDiag])) := rfl

/-- C1 (amended): for a file whose diagnostics keep producing applicable
fixes, the fix-convergence loop stops after exactly 6 applied iterations —
the 6th batch is still applied before the cap check fires — then warns naming
the file and persists the iteration-6 text; no 7th batch is applied. -/
theorem fix_loop_caps_at_six_iterations (linter : Linter) (specifier : String)
    (P : Text → List LintDiagnostic → Prop)
    (hstep : ∀ t ds, P t ds → ∃ t' ds',
      apply_lint_fixes_and_relint linter t ds = .ok (some (t', ds')) ∧ P t' ds')
    (t0 : Text) (ds0 : List LintDiagnostic) (hP0 : P t0 ds0)
    (hl : linter t0 = .ok ds0) :
    ∃ t' ds', lint_file_and_fix linter specifier t0 =
      .ok ⟨t', ds', 6, some specifier, some t'⟩ := by
  obtain ⟨t', ds', hloop, _⟩ :=
    fixLoop_cap linter P hstep 5 0 rfl (by omega) t0 ds0 hP0
  refine ⟨t', ds', ?_⟩
  simp [lint_file_and_fix, hl, hloop]

/-- C1 counterexample: with the never-converging rule and empty initial text
the loop applies six batches (`iterations = 6`), then warns and persists the
six-edit text — contradicting the claim that it stops after exactly 5 applied
iterations with no 6th batch ever applied. -/
theorem fix_loop_six_not_five_counterexample :
    lint_file_and_fix stubbornLinter "file:///a.ts" [] =
      .ok ⟨['x', 'x', 'x', 'x', 'x', 'x'], [stubbornDiag], 6,
        some "file:///a.ts", some ['x', 'x', 'x', 'x', 'x', 'x']⟩ := by
  have hloop : fixLoop stubbornLinter [] [stubbornDiag] 0 =
      .ok ⟨['x', 'x', 'x', 'x', 'x', 'x'], [stubbornDiag], 6, true⟩ := by
    simp [fixLoop, stubborn_step]
  simp [lint_file_and_fix,
    show stubbornLinter [] = Except.ok [stubbornDiag] from rfl, hloop]

/-- Witness for C1: the never-converging rule satisfies the theorem's
always-progress hypothesis, so the loop is warned at 6 iterations. -/
theorem fix_loop_caps_at_six_iterations_witness :
    stubbornLinter [] = .ok [stubbornDiag] ∧
    (∃ t' ds', lint_file_and_fix stubbornLinter "file:///stub.ts" [] =
      .ok ⟨t', ds', 6, some "file:///stub.ts", some t'⟩) :=
  ⟨rfl, fix_loop_caps_at_six_iterations stubbornLinter "file:///stub.ts"
    (fun _ ds => ds = [stubbornDiag])
    (fun t ds hP => by
      subst hP
      exact ⟨'x' :: t, [stubbornDiag], stubborn_step t, rfl⟩)
    [] [stubbornDiag] rfl rfl⟩

/-! ### Claim C8 -/

/-- C8: a re-lint failure after an applied batch surfaces as an error wrapped
in the distinguishing context message; every error the loop produces has that
form; and such a failure reaches the sink through the file task's error path
— one error visit, no diagnostic visits — raising the error flag. -/
theorem relint_failure_is_wrapped_error :
    (∀ (linter : Linter) (t nt : Text) (ds : List LintDiagnostic) (e : Err),
      apply_lint_fixes t ds = some nt → linter nt = .error e →
      apply_lint_fixes_and_relint linter t ds =
        .error (errContext fixSyntaxErrorMsg e)) ∧
    (∀ (linter : Linter) (t : Text) (ds : List LintDiagnostic) (k : Nat) (e : Err),
      fixLoop linter t ds k = .error e →
        ∃ e₀, e = errContext fixSyntaxErrorMsg e₀) ∧
    (∀ (cache : CacheGateway) (linter : Linter) (inp : FileInput) (e : Err),
      cache inp.path inp.text = false →
      lint_file linter inp.path true inp.text = .error e →
      processFile cache linter true inp = ⟨[], [], [(inp.path, e)], true⟩) := by
  refine ⟨?_, ?_, ?_⟩
  · intro linter t nt ds e hfix hre
    simp only [apply_lint_fixes_and_relint, hfix, hre]
  · intro linter t ds k e h
    exact fixLoop_error_wrapped linter (6 - k) t ds k (le_refl _) e h
  · intro cache linter inp e hc hr
    simp [processFile, hc, hr]

/-- Witness for C8: the fix on `bad` rewrites it to `ok`, which the broken
linter fails to parse; the wrapped error reaches the error path of the file
task. -/
theorem relint_failure_is_wrapped_error_witness :
    apply_lint_fixes ['b', 'a', 'd'] [fixableDiag] = some ['o', 'k'] ∧
    brokenFixLinter ['o', 'k'] = .error ["boom"] ∧
    apply_lint_fixes_and_relint brokenFixLinter ['b', 'a', 'd'] [fixableDiag] =
      .error (errContext fixSyntaxErrorMsg ["boom"]) ∧
    processFile (fun _ _ => false) brokenFixLinter true ⟨"p", ['b', 'a', 'd']⟩ =
      ⟨[], [], [("p", errContext fixSyntaxErrorMsg ["boom"])], true⟩ := by
  have hfix : apply_lint_fixes ['b', 'a', 'd'] [fixableDiag] = some ['o', 'k'] := rfl
  have hre : brokenFixLinter ['o', 'k'] = .error ["boom"] := rfl
  have hlf : lint_file brokenFixLinter "p" true ['b', 'a', 'd'] =
      .error (errContext fixSyntaxErrorMsg ["boom"]) := by
    show lint_file_and_fix brokenFixLinter "p" ['b', 'a', 'd'] = _
    have hloop : fixLoop brokenFixLinter ['b', 'a', 'd'] [fixableDiag] 0 =
        .error (errContext fixSyntaxErrorMsg ["boom"]) := by
      rw [fixLoop.eq_def]
      rw [relint_failure_is_wrapped_error.1 brokenFixLinter ['b', 'a', 'd']
        ['o', 'k'] [fixableDiag] ["boom"] hfix hre]
    simp [lint_file_and_fix,
      show brokenFixLinter ['b', 'a', 'd'] = Except.ok [fixableDiag] from rfl, hloop]
  exact ⟨hfix, hre,
    relint_failure_is_wrapped_error.1 brokenFixLinter ['b', 'a', 'd'] ['o', 'k']
      [fixableDiag] ["boom"] hfix hre,
    relint_failure_is_wrapped_error.2.2 (fun _ _ => false) brokenFixLinter
      ⟨"p", ['b', 'a', 'd']⟩ (errContext fixSyntaxErrorMsg ["boom"]) rfl hlf⟩

/-! ### Claim C5 -/

/-- C5: the incremental cache's `update_file` is called for a file if and
only if it was not skipped as unchanged and its analysis succeeded with an
empty final diagnostic list, and the content passed is the final text of the
analyzed source — the post-fix text when fixes were applied. -/
theorem cache_update_iff_clean (cache : CacheGateway) (linter : Linter)
    (fix : Bool) (inp : FileInput) (p : String) (c : Text) :
    (p, c) ∈ (processFile cache linter fix inp).updates ↔
      (cache inp.path inp.text = false ∧ p = inp.path ∧
       ∃ r, lint_file linter inp.path fix inp.text = .ok r ∧
         r.diagnostics = [] ∧ c = r.source) := by
  unfold processFile
  cases hc : cache inp.path inp.text with
  | true => simp
  | false =>
    cases hr : lint_file linter inp.path fix inp.text with
    | ok r =>
      by_cases hd : r.diagnostics = []
      · simp [hd, Prod.ext_iff, eq_comm]
      · simp [hd]
    | error e => simp

/-- The converging linter's full per-file pipeline on `bad`: one applied
iteration, the fixed text `ok`, no remaining diagnostics, the fixed text
written back. -/
theorem converging_lint_file_eval :
    lint_file convergingLinter "p" true ['b', 'a', 'd'] =
      .ok ⟨['o', 'k'], [], 1, none, some ['o', 'k']⟩ := by
  have hstep1 : apply_lint_fixes_and_relint convergingLinter ['b', 'a', 'd']
      [fixableDiag] = .ok (some (['o', 'k'], [])) := rfl
  have hstep2 : apply_lint_fixes_and_relint convergingLinter ['o', 'k'] [] =
      .ok none := rfl
  have hloop : fixLoop convergingLinter ['b', 'a', 'd'] [fixableDiag] 0 =
      .ok ⟨['o', 'k'], [], 1, false⟩ := by
    simp [fixLoop, hstep1, hstep2]
  show lint_file_and_fix convergingLinter "p" ['b', 'a', 'd'] = _
  simp [lint_file_and_fix,
    show convergingLinter ['b', 'a', 'd'] = Except.ok [fixableDiag] from rfl, hloop]

/-- Witness for C5: on `bad` the fix pipeline ends clean with text `ok`, and
the cache update carries the post-fix text, not the original. -/
theorem cache_update_iff_clean_witness :
    lint_file convergingLinter "p" true ['b', 'a', 'd'] =
      .ok ⟨['o', 'k'], [], 1, none, some ['o', 'k']⟩ ∧
    ("p", ['o', 'k']) ∈
      (processFile (fun _ _ => false) convergingLinter true
        ⟨"p", ['b', 'a', 'd']⟩).updates :=
  ⟨converging_lint_file_eval,
    (cache_update_iff_clean (fun _ _ => false) convergingLinter true
      ⟨"p", ['b', 'a', 'd']⟩ "p" ['o', 'k']).mpr
      ⟨rfl, rfl, ⟨⟨['o', 'k'], [], 1, none, some ['o', 'k']⟩,
        converging_lint_file_eval, rfl, rfl⟩⟩⟩

/-! ### Claim C6 -/

/-- C6: a cache hit makes the file task return immediately: no cache write,
no diagnostic or error visit, the error flag untouched, the outcome
independent of the linter — and the file still counts toward the checked
count passed to `close`, which is always the full batch size. -/
theorem cache_hit_skips_file (cache : CacheGateway) (linter linter' : Linter)
    (fix : Bool) (inp : FileInput) (h : cache inp.path inp.text = true) :
    processFile cache linter fix inp = ⟨[], [], [], false⟩ ∧
    processFile cache linter fix inp = processFile cache linter' fix inp ∧
    ∀ inputs : List FileInput,
      (lint_files_run cache linter fix inputs).closeCount = inputs.length := by
  have h1 : processFile cache linter fix inp = ⟨[], [], [], false⟩ := by
    simp [processFile, h]
  have h2 : processFile cache linter' fix inp = ⟨[], [], [], false⟩ := by
    simp [processFile, h]
  exact ⟨h1, by rw [h1, h2], fun inputs => rfl⟩

/-- Witness for C6: with an always-hit cache nothing is observed for the
file, two different linters agree, and a one-file batch closes with count 1. -/
theorem cache_hit_skips_file_witness :
    processFile (fun _ _ => true) stubbornLinter true ⟨"p", []⟩ =
      ⟨[], [], [], false⟩ ∧
    processFile (fun _ _ => true) stubbornLinter true ⟨"p", []⟩ =
      processFile (fun _ _ => true) fixlessLinter true ⟨"p", []⟩ ∧
    (lint_files_run (fun _ _ => true) stubbornLinter true
      [⟨"p", []⟩]).closeCount = 1 :=
  ⟨(cache_hit_skips_file (fun _ _ => true) stubbornLinter fixlessLinter true
      ⟨"p", []⟩ rfl).1,
   (cache_hit_skips_file (fun _ _ => true) stubbornLinter fixlessLinter true
      ⟨"p", []⟩ rfl).2.1,
   (cache_hit_skips_file (fun _ _ => true) stubbornLinter fixlessLinter true
      ⟨"p", []⟩ rfl).2.2 [⟨"p", []⟩]⟩

/-! ### Claim C4 -/

/-- C4: at finalization the JSON reporter emits a permutation of its buffered
diagnostics sorted by the spec's total order — filename lexicographically;
for equal filenames a ranged diagnostic before an unranged one, two unranged
ones comparing equal, two ranged ones by start line then start column — and
the reporter's comparator agrees with that order on every pair. -/
theorem json_close_sorts_by_spec_order (r : JsonLintReporter) :
    (r.close).diagnostics.Perm r.diagnostics ∧
    List.Sorted (fun a b => (sortOrderSpec a b).isLE = true) (r.close).diagnostics ∧
    ∀ a b, diagCmp a b = sortOrderSpec a b := by
  refine ⟨?_, ?_, diagCmp_eq_sortOrderSpec⟩
  · exact List.perm_insertionSort jsonDiagLe r.diagnostics
  · have hs : List.Sorted jsonDiagLe (r.close).diagnostics :=
      List.sorted_insertionSort jsonDiagLe r.diagnostics
    exact hs.imp (fun hab => by
      unfold jsonDiagLe at hab
      rwa [diagCmp_eq_sortOrderSpec] at hab)

/-! ### Claim C3 -/

/-- C3 (amended): for fixed diagnostics that the sort order distinguishes
pairwise, the machine-readable output is independent of the order in which
the diagnostics are delivered to the sink; the buffered error list, however,
is serialized in arrival order, so the error deliveries must arrive in the
same order for byte-identical output. -/
theorem json_output_order_independent (ev₁ ev₂ : List SinkEvent)
    (hperm : (diagRecordsOf ev₁).Perm (diagRecordsOf ev₂))
    (herr : errRecordsOf ev₁ = errRecordsOf ev₂)
    (hanti : ∀ a ∈ diagRecordsOf ev₁, ∀ b ∈ diagRecordsOf ev₁,
      diagCmp a b = .eq → a = b) :
    runJsonReporter ev₁ = runJsonReporter ev₂ := by
  have hD : sort_diagnostics (diagRecordsOf ev₁) =
      sort_diagnostics (diagRecordsOf ev₂) := by
    have hp : (sort_diagnostics (diagRecordsOf ev₁)).Perm
        (sort_diagnostics (diagRecordsOf ev₂)) :=
      ((List.perm_insertionSort jsonDiagLe (diagRecordsOf ev₁)).trans hperm).trans
        (List.perm_insertionSort jsonDiagLe (diagRecordsOf ev₂)).symm
    have hs₁ : (sort_diagnostics (diagRecordsOf ev₁)).Pairwise jsonDiagLe :=
      List.sorted_insertionSort jsonDiagLe (diagRecordsOf ev₁)
    have hs₂ : (sort_diagnostics (diagRecordsOf ev₂)).Pairwise jsonDiagLe :=
      List.sorted_insertionSort jsonDiagLe (diagRecordsOf ev₂)
    refine @sorted_perm_eq _ jsonDiagLe _ _ hp hs₁ hs₂ ?_
    intro a ha b hb hab hba
    exact hanti a
      ((List.perm_insertionSort jsonDiagLe (diagRecordsOf ev₁)).mem_iff.mp ha)
      b ((List.perm_insertionSort jsonDiagLe (diagRecordsOf ev₁)).mem_iff.mp hb)
      (jsonDiagLe_antisymm_eq hab hba)
  unfold runJsonReporter
  rw [foldl_visitEvent ev₁ JsonLintReporter.new,
    foldl_visitEvent ev₂ JsonLintReporter.new]
  unfold JsonLintReporter.close
  simp only [JsonLintReporter.new, List.nil_append]
  rw [hD, herr]

/-- C3 counterexample: two runs that deliver the same two file errors in
different orders produce different machine-readable output, because the
error buffer is not sorted at close. -/
theorem json_output_error_order_counterexample :
    runJsonReporter [.err "file:///a.ts" ["x"], .err "file:///b.ts" ["y"]] ≠
      runJsonReporter [.err "file:///b.ts" ["y"], .err "file:///a.ts" ["x"]] := by
  decide

/-- Witness for C3: two diagnostics in distinct files delivered in either
order close to identical output. -/
theorem json_output_order_independent_witness :
    (diagRecordsOf [.diag jsonDiagB, .diag jsonDiagA]).Perm
      (diagRecordsOf [.diag jsonDiagA, .diag jsonDiagB]) ∧
    errRecordsOf [.diag jsonDiagB, .diag jsonDiagA] =
      errRecordsOf [.diag jsonDiagA, .diag jsonDiagB] ∧
    (∀ a ∈ diagRecordsOf [.diag jsonDiagB, .diag jsonDiagA],
      ∀ b ∈ diagRecordsOf [.diag jsonDiagB, .diag jsonDiagA],
        diagCmp a b = .eq → a = b) ∧
    runJsonReporter [.diag jsonDiagB, .diag jsonDiagA] =
      runJsonReporter [.diag jsonDiagA, .diag jsonDiagB] :=
  ⟨List.Perm.swap _ _ _, rfl, by decide,
    json_output_order_independent [.diag jsonDiagB, .diag jsonDiagA]
      [.diag jsonDiagA, .diag jsonDiagB]
      (List.Perm.swap _ _ _) rfl (by decide)⟩

/-! ### Claim C9 -/

/-- C9 (amended): for a located diagnostic the compact line carries the file
identity, the 1-indexed display line number, the 1-indexed display column
number, the message and the code; for an unlocated diagnostic it carries the
identity, message and code, omitting line and column. -/
theorem compact_line_format :
    (∀ (d : LintOrCliDiagnostic) (r : DiagRange), d.range = some r →
      compact_line d = d.specifier ++ ": line " ++
        toString (lineIndexOf r.text_info r.start + 1) ++ ", col " ++
        toString (columnIndexOf r.text_info r.start + 1) ++ " - " ++
        d.message ++ " (" ++ d.code ++ ")") ∧
    (∀ d : LintOrCliDiagnostic, d.range = none →
      compact_line d = d.specifier ++ ": " ++ d.message ++ " (" ++ d.code ++ ")") := by
  constructor
  · intro d r h
    unfold compact_line
    rw [h]
    rfl
  · intro d h
    unfold compact_line
    rw [h]

/-- C9 counterexample: at position 0 of `abc` the 0-indexed column index is
0, yet the emitted compact line reads `col 1` (and does not read `col 0`):
the compact reporter prints the 1-indexed display column, not the 0-indexed
column index. -/
theorem compact_line_column_counterexample :
    compact_line compactSampleDiag = "file:///a.ts: line 1, col 1 - m (x)" ∧
    compact_line compactSampleDiag ≠ "file:///a.ts: line 1, col 0 - m (x)" ∧
    columnIndexOf ['a', 'b', 'c'] 0 = 0 := by
  decide

/-- Witness for C9 at the concrete located diagnostic. -/
theorem compact_line_format_witness :
    compactSampleDiag.range = some ⟨['a', 'b', 'c'], 0, 1⟩ ∧
    compact_line compactSampleDiag = compactSampleDiag.specifier ++ ": line " ++
      toString (lineIndexOf ['a', 'b', 'c'] 0 + 1) ++ ", col " ++
      toString (columnIndexOf ['a', 'b', 'c'] 0 + 1) ++ " - " ++
      compactSampleDiag.message ++ " (" ++ compactSampleDiag.code ++ ")" :=
  ⟨rfl, compact_line_format.1 compactSampleDiag ⟨['a', 'b', 'c'], 0, 1⟩ rfl⟩

end DenoLint
